import Mathlib

/-!
Verification of the insider open-market purchase alert pipeline
(`insider_alert.py`): the Form 4 transaction extractor (`parse_form4_xml`),
the aggregator/deduplicator and presentation sort in `main` /
`build_email_html`, the document locator (`_find_xml_on_index_page`), and
the trace-level behaviour of `main` around the delivery-credential check in
`send_email`.

Numbers are modelled as rationals; Python strings are Lean `String`s, with
the ASCII case and splitting methods re-implemented over the underlying
character lists so that concrete runs reduce in the kernel.
-/

namespace InsiderAlert

/-! ### ASCII string helpers (models of Python str methods) -/

/-- Model of `str.lower` on one character (ASCII, which covers every string
the pipeline compares case-insensitively). -/
def charLower (c : Char) : Char :=
  if 'A' ≤ c ∧ c ≤ 'Z' then Char.ofNat (c.toNat + 32) else c

/-- Model of `str.upper` on one character. -/
def charUpper (c : Char) : Char :=
  if 'a' ≤ c ∧ c ≤ 'z' then Char.ofNat (c.toNat - 32) else c

/-- Model of Python `s.lower()`. -/
def strLower (s : String) : String := String.mk (s.data.map charLower)

/-- Model of Python `s.upper()`. -/
def strUpper (s : String) : String := String.mk (s.data.map charUpper)

/-- Model of Python `s.startswith(p)`. -/
def strStartsWith (s p : String) : Bool := List.isPrefixOf p.data s.data

/-- Split a character list at every `/`. -/
def splitSlash : List Char → List (List Char)
  | [] => [[]]
  | c :: cs =>
    match splitSlash cs with
    | [] => [[]]
    | g :: gs => if c = '/' then [] :: g :: gs else (c :: g) :: gs

/-- Model of Python `link.rsplit("/", 1)[-1] if "/" in link else link`:
the part of the string after its last slash. -/
def basenameOf (link : String) : String :=
  String.mk ((splitSlash link.data).getLastD [])

/-- Rejoin character-list groups with `/` between them. -/
def joinSlash : List (List Char) → List Char
  | [] => []
  | [g] => g
  | g :: gs => g ++ '/' :: joinSlash gs

/-- Model of Python `idx_url.rsplit("/", 1)[0]`: everything before the last
slash, or the whole string when it contains no slash. -/
def dirnameOf (s : String) : String :=
  let parts := splitSlash s.data
  if parts.length = 1 then s else String.mk (joinSlash parts.dropLast)

/-! ### Transaction extractor data model (`parse_form4_xml`)

The XML layer is modelled at the point where `parse_form4_xml` has read each
element's text through the `_text` helper: every field of interest is the
string produced by its `_text(...) or _text(...)` chain, with `""` standing
for an absent element (exactly what `_text` returns then).  The numeric
fields additionally record how Python `float(...)` behaves on the string. -/

/-- Outcome of reading a numeric field: the element was absent or empty
(`Python: falsy string`), it parses as a number, or `float()` raises
`ValueError`. -/
inductive NumStr where
  | empty : NumStr
  | num : ℚ → NumStr
  | bad : NumStr
deriving DecidableEq

/-- `float(s) if s else 0`, under the `try` that skips the line on
`ValueError`. -/
def numVal : NumStr → Option ℚ
  | NumStr.empty => some 0
  | NumStr.num q => some q
  | NumStr.bad => none

/-- The shares and price of one line; `none` when `float()` raised on either
string (the line's `except ValueError: continue`). -/
def lineVals (s p : NumStr) : Option (ℚ × ℚ) :=
  match numVal s, numVal p with
  | some a, some b => some (a, b)
  | _, _ => none

/-- One `nonDerivativeTransaction` element as `parse_form4_xml` reads it. -/
structure Txn where
  code : String
  acqDisp : String
  sharesStr : NumStr
  priceStr : NumStr
  dateStr : String
deriving DecidableEq

/-- The `reportingOwnerRelationship` element's fields (text of each child). -/
structure OwnerRel where
  isDirector : String
  isOfficer : String
  isTenPercentOwner : String
  officerTitle : String
deriving DecidableEq

/-- A parsed Form 4 document at the granularity `parse_form4_xml` consumes
it: the issuer/owner text fields (each `""` when the element is absent), the
optional relationship element, and the non-derivative transaction list. -/
structure Form4Xml where
  issuerName : String
  issuerTradingSymbol : String
  issuerCik : String
  rptOwnerName : String
  rel : Option OwnerRel
  txns : List Txn
deriving DecidableEq

/-- `_text(rel, flag) in ("1", "true")`. -/
def flagSet (s : String) : Bool := s == "1" || s == "true"

/-- The role string built from the relationship flags (lines 363-378 of the
source): officer title, else "Officer", plus "Director" and "10%+ Owner",
comma-joined; "Insider" when no flag is set. -/
def role_str (rel : Option OwnerRel) : String :=
  let is_director := match rel with | some w => flagSet w.isDirector | none => false
  let is_officer := match rel with | some w => flagSet w.isOfficer | none => false
  let is_ten_pct := match rel with | some w => flagSet w.isTenPercentOwner | none => false
  let officer_title := match rel with | some w => w.officerTitle | none => ""
  let roles :=
    (if is_officer then [if officer_title ≠ "" then officer_title else "Officer"] else [])
      ++ (if is_director then ["Director"] else [])
      ++ (if is_ten_pct then ["10%+ Owner"] else [])
  if roles = [] then "Insider" else String.intercalate ", " roles

/-- One surviving purchase line (the dict appended to `purchases`). -/
structure Purchase where
  date : String
  shares : ℚ
  price : ℚ
  total_value : ℚ
deriving DecidableEq

/-- The two guard clauses of the transaction loop (lines 383-392): the first
`continue` fires unless the code is exactly `"P"`, the second fires when the
acquired/disposed string is non-empty and differs from `"A"`. -/
def passesTypeDirection (t : Txn) : Prop :=
  ¬ t.code ≠ "P" ∧ ¬ (t.acqDisp ≠ "" ∧ t.acqDisp ≠ "A")

instance (t : Txn) : Decidable (passesTypeDirection t) := by
  unfold passesTypeDirection
  infer_instance

/-- The body of the `for txn in root.findall(".//nonDerivativeTransaction")`
loop: `none` when some `continue` fires, otherwise the purchase dict that is
appended.  The per-line threshold test `total_value >= MIN_PURCHASE_USD`
(line 406) is part of this body. -/
def processTxn (T : ℚ) (t : Txn) : Option Purchase :=
  if t.code ≠ "P" then none
  else if t.acqDisp ≠ "" ∧ t.acqDisp ≠ "A" then none
  else
    match lineVals t.sharesStr t.priceStr with
    | none => none
    | some (shares, price) =>
      if shares * price ≥ T then
        some { date := t.dateStr, shares := shares, price := price,
               total_value := shares * price }
      else none

/-- The `purchases` list accumulated by the transaction loop. -/
def processTxns (T : ℚ) (ts : List Txn) : List Purchase :=
  ts.filterMap (processTxn T)

/-- The canonical output record (the dict returned by `parse_form4_xml`). -/
structure PurchaseRecord where
  issuer_name : String
  ticker : String
  issuer_cik : String
  owner_name : String
  role : String
  purchases : List Purchase
  total_invested : ℚ
  total_shares : ℚ
  avg_price : ℚ
  filing_url : String
deriving DecidableEq

/-- `parse_form4_xml` from the parsed tree on (lines 352-432): `none` when
the issuer name is absent or no line survives the loop, otherwise the record
with its derived totals.  `T` is the configured `MIN_PURCHASE_USD`. -/
def parse_form4_xml (T : ℚ) (xml_url : String) (doc : Form4Xml) :
    Option PurchaseRecord :=
  if doc.issuerName = "" then none
  else
    let purchases := processTxns T doc.txns
    if purchases = [] then none
    else
      let total_invested := (purchases.map Purchase.total_value).sum
      let total_shares := (purchases.map Purchase.shares).sum
      let avg_price := if total_shares ≠ 0 then total_invested / total_shares else 0
      some { issuer_name := doc.issuerName,
             ticker := if doc.issuerTradingSymbol ≠ "" then strUpper doc.issuerTradingSymbol
                       else "N/A",
             issuer_cik := doc.issuerCik,
             owner_name := doc.rptOwnerName,
             role := role_str doc.rel,
             purchases := purchases,
             total_invested := total_invested,
             total_shares := total_shares,
             avg_price := avg_price,
             filing_url := xml_url }

/-! ### Aggregator / deduplicator (`main`, lines 575-583) -/

/-- The identity key `(t["ticker"], t["owner_name"])` used by the `seen`
set in `main`. -/
def dedupKey (t : PurchaseRecord) : String × String := (t.ticker, t.owner_name)

/-- The dedup loop of `main`, with the `seen` set made explicit: keep a
record when its key has not been seen, otherwise drop it whole. -/
def dedupAux : List PurchaseRecord → List (String × String) → List PurchaseRecord
  | [], _ => []
  | t :: ts, seen =>
    if dedupKey t ∈ seen then dedupAux ts seen
    else t :: dedupAux ts (dedupKey t :: seen)

/-- `main`'s deduplication pass, started with an empty `seen` set. -/
def dedupRecords (l : List PurchaseRecord) : List PurchaseRecord := dedupAux l []

/-- Comparison underlying `trades.sort(key=lambda t: t["total_invested"],
reverse=True)`: `a` may precede `b` when `b`'s total does not exceed
`a`'s. -/
def valGE (a b : PurchaseRecord) : Prop := b.total_invested ≤ a.total_invested

instance : DecidableRel valGE :=
  fun a b => inferInstanceAs (Decidable (b.total_invested ≤ a.total_invested))

instance : IsTotal PurchaseRecord valGE :=
  ⟨fun a b => le_total b.total_invested a.total_invested⟩

instance : IsTrans PurchaseRecord valGE :=
  ⟨fun _ _ _ hab hbc => le_trans hbc hab⟩

/-- `build_email_html`'s presentation sort (line 457).  Python `list.sort`
is the stable sort, and `reverse=True` keeps equal elements in input order,
which is exactly insertion sort under `valGE`. -/
def sortByValueDesc (l : List PurchaseRecord) : List PurchaseRecord :=
  List.insertionSort valGE l

/-- The aggregator as `main` runs it: first-seen dedup, then the stable
descending presentation sort. -/
def aggregate (l : List PurchaseRecord) : List PurchaseRecord :=
  sortByValueDesc (dedupRecords l)

/-! ### Document locator (`_find_xml_on_index_page`, lines 185-207) -/

/-- The skip test of the link loop: `basename.lower().startswith("r_")`. -/
def isRenderArtifact (link : String) : Bool :=
  strStartsWith (strLower (basenameOf link)) "r_"

/-- How an accepted link is returned: absolute links as they are, relative
links joined to the index page's folder. -/
def resolveLink (folder link : String) : String :=
  if strStartsWith link "http" then link else folder ++ "/" ++ link

/-- The `for link in xml_links` loop: skip `r_`-prefixed basenames, return
the first remaining link, `none` when the list is exhausted. -/
def firstXmlLink (folder : String) : List String → Option String
  | [] => none
  | link :: rest =>
    if isRenderArtifact link then firstXmlLink folder rest
    else some (resolveLink folder link)

/-- `_find_xml_on_index_page`: `status` is the HTTP status of the index page
(a network failure is modelled as a non-200 status, both end in `return
None`), `xmlLinks` the `href="....xml"` matches in page order. -/
def find_xml_on_index_page (idx_url : String) (status : Nat)
    (xmlLinks : List String) : Option String :=
  if status ≠ 200 then none
  else firstXmlLink (dirnameOf idx_url) xmlLinks

/-! ### Main pipeline trace (`main` and `send_email`)

`main` is modelled by the sequence of observable events it produces —
network requests, a delivered email, or the fatal `sys.exit(1)` /
re-raised delivery failure — together with the process exit code.  The
upstream's responses are supplied by a `World`. -/

/-- Configuration read from the environment at startup. -/
structure Config where
  gmailAddress : String
  gmailAppPass : String
  recipientEmail : String
  minPurchaseUsd : ℚ

/-- Observable events of one run. -/
inductive Event where
  | netCall : Event
  | emailDelivered : Event
  | abortNonzero : Event
deriving DecidableEq

/-- The upstream world: what each network request of the run returns. -/
structure World where
  /-- Search/index requests `fetch_form4_robust` makes beyond its
  unconditional first search request. -/
  robustExtraCalls : Nat
  /-- XML document URLs `fetch_form4_robust` resolves. -/
  robustUrls : List String
  /-- Extra requests of the RSS fallback beyond the feed fetch and the one
  index-page fetch per entry. -/
  rssExtraCalls : Nat
  /-- Links of the RSS entries. -/
  rssLinks : List String
  /-- Outcome of `_find_xml_on_index_page` for each RSS link. -/
  resolveIndex : String → Option String
  /-- Fetch-and-XML-parse outcome for each document URL (`none` covers the
  non-200 and unparsable cases, which make `parse_form4_xml` return
  `None`). -/
  fetchDoc : String → Option Form4Xml
  /-- Whether SMTP delivery succeeds when it is attempted. -/
  smtpOk : Bool

/-- Network trace of `fetch_form4_robust` (lines 243-322): the `while True`
loop unconditionally issues its first search request; the remaining search
and index-page requests are abstracted by `robustExtraCalls`. -/
def fetch_form4_robust_trace (w : World) : List Event × List String :=
  (List.replicate (1 + w.robustExtraCalls) Event.netCall, w.robustUrls)

/-- Network trace of the RSS fallback in `main` (lines 546-553): one feed
fetch, then one index-page fetch per entry link. -/
def rss_fallback_trace (w : World) : List Event × List String :=
  (List.replicate (1 + w.rssLinks.length + w.rssExtraCalls) Event.netCall,
   w.rssLinks.filterMap w.resolveIndex)

/-- `send_email` (lines 513-532): the credential check comes first — a
missing `GMAIL_APP_PASSWORD` logs an error and calls `sys.exit(1)` with no
SMTP traffic; otherwise delivery is attempted and a failure is re-raised,
which also ends the process with a nonzero status. -/
def send_email_trace (cfg : Config) (smtpOk : Bool) : List Event :=
  if cfg.gmailAppPass = "" then [Event.abortNonzero]
  else if smtpOk then [Event.emailDelivered]
  else [Event.abortNonzero]

/-- The process exit code of one run. -/
def runExitCode (cfg : Config) (w : World) : Nat :=
  if cfg.gmailAppPass = "" then 1 else if w.smtpOk then 0 else 1

/-- `main` (lines 538-591) as an event trace: resolve document URLs (RSS
fallback when the primary finds none), fetch and parse each document (one
request per URL), then build and send the digest.  Record construction,
deduplication and the sort are pure and contribute no events; delivery is
always reached, so the credential check runs only after all fetching. -/
def mainRun (cfg : Config) (w : World) : List Event × Nat :=
  let step1 := fetch_form4_robust_trace w
  let step2 := if step1.2.isEmpty then rss_fallback_trace w else ([], step1.2)
  if step2.2.isEmpty then
    (step1.1 ++ step2.1 ++ send_email_trace cfg w.smtpOk, runExitCode cfg w)
  else
    let parseEvents := List.replicate step2.2.length Event.netCall
    (step1.1 ++ step2.1 ++ parseEvents ++ send_email_trace cfg w.smtpOk,
     runExitCode cfg w)

/-! ### Spec-side definition for the aggregate-threshold claim -/

/-- Follows the spec's words (shared post-parse filter, §4.3): the aggregate
invested value of the lines backing a document's record — the sum of
quantity × price over the lines that survive the type and direction filter
and parse as numbers.  To be compared with the per-line test the code
applies. -/
def specAggregateValue (doc : Form4Xml) : ℚ :=
  ((doc.txns.filter fun t => decide (passesTypeDirection t)).filterMap
      (fun t => (lineVals t.sharesStr t.priceStr).map fun q => q.1 * q.2)).sum

/-! ### Fixtures: concrete documents and records used as test inputs -/

/-- A plain open-market purchase line with the given shares and price. -/
def txnP (sh pr : ℚ) : Txn :=
  { code := "P", acqDisp := "A", sharesStr := NumStr.num sh,
    priceStr := NumStr.num pr, dateStr := "2024-01-02" }

/-- A sale line (transaction code "S") with a large value. -/
def txnS : Txn :=
  { code := "S", acqDisp := "D", sharesStr := NumStr.num 10000,
    priceStr := NumStr.num 500, dateStr := "2024-01-02" }

/-- One qualifying document: a single 1000 × 300 purchase. -/
def docOK : Form4Xml :=
  { issuerName := "Acme Corp", issuerTradingSymbol := "ACME", issuerCik := "0001",
    rptOwnerName := "Jane Doe", rel := none, txns := [txnP 1000 300] }

/-- The purchase line `docOK` yields. -/
def pOK : Purchase :=
  { date := "2024-01-02", shares := 1000, price := 300, total_value := 300000 }

/-- The record `docOK` yields at threshold 250000. -/
def recOK : PurchaseRecord :=
  { issuer_name := "Acme Corp", ticker := "ACME", issuer_cik := "0001",
    owner_name := "Jane Doe", role := "Insider", purchases := [pOK],
    total_invested := 300000, total_shares := 1000, avg_price := 300,
    filing_url := "https://www.sec.gov/a/b.xml" }

/-- Two purchase lines of 150000 dollars each: each line is below the
250000 threshold while their aggregate is above it. -/
def docSplit : Form4Xml :=
  { issuerName := "Acme Corp", issuerTradingSymbol := "ACME", issuerCik := "0001",
    rptOwnerName := "Jane Doe", rel := none, txns := [txnP 1000 150, txnP 1000 150] }

/-- A line with negative shares and negative price whose product clears the
threshold. -/
def docNeg : Form4Xml :=
  { issuerName := "Acme Corp", issuerTradingSymbol := "ACME", issuerCik := "0001",
    rptOwnerName := "Jane Doe", rel := none, txns := [txnP (-1000) (-300)] }

/-- The purchase line `docNeg` yields. -/
def pNeg : Purchase :=
  { date := "2024-01-02", shares := -1000, price := -300, total_value := 300000 }

/-- The record `docNeg` yields at threshold 250000. -/
def recNeg : PurchaseRecord :=
  { issuer_name := "Acme Corp", ticker := "ACME", issuer_cik := "0001",
    owner_name := "Jane Doe", role := "Insider", purchases := [pNeg],
    total_invested := 300000, total_shares := -1000, avg_price := -300,
    filing_url := "https://www.sec.gov/a/b.xml" }

/-- A document with a qualifying line but no issuer name element. -/
def docNoIssuer : Form4Xml :=
  { issuerName := "", issuerTradingSymbol := "ACME", issuerCik := "0001",
    rptOwnerName := "Jane Doe", rel := none, txns := [txnP 1000 300] }

/-- A document with an issuer name but absent ticker, CIK and owner name. -/
def docBlankFields : Form4Xml :=
  { issuerName := "Acme Corp", issuerTradingSymbol := "", issuerCik := "",
    rptOwnerName := "", rel := none, txns := [txnP 1000 300] }

/-- A minimal record with the given ticker, owner name and total. -/
def mkRec (ticker owner : String) (v : ℚ) : PurchaseRecord :=
  { issuer_name := "Acme Corp", ticker := ticker, issuer_cik := "",
    owner_name := owner, role := "Insider", purchases := [],
    total_invested := v, total_shares := 0, avg_price := 0, filing_url := "" }

/-- A configuration with the delivery credential absent. -/
def cfgNoPass : Config :=
  { gmailAddress := "you@gmail.com", gmailAppPass := "",
    recipientEmail := "you@gmail.com", minPurchaseUsd := 250000 }

/-- A world where the primary search resolves one document URL whose fetch
then fails. -/
def worldOne : World :=
  { robustExtraCalls := 0, robustUrls := ["https://www.sec.gov/a/b.xml"],
    rssExtraCalls := 0, rssLinks := [], resolveIndex := fun _ => none,
    fetchDoc := fun _ => none, smtpOk := true }

/-! ### Lemmas about the transaction loop -/

theorem processTxn_not_pass {t : Txn} (h : ¬ passesTypeDirection t) (T : ℚ) :
    processTxn T t = none := by
  unfold processTxn passesTypeDirection at *
  by_cases h1 : t.code ≠ "P"
  · simp [h1]
  · by_cases h2 : t.acqDisp ≠ "" ∧ t.acqDisp ≠ "A"
    · simp [h1, h2]
    · exact absurd ⟨h1, h2⟩ h

theorem processTxn_some {T : ℚ} {t : Txn} {p : Purchase}
    (h : processTxn T t = some p) :
    p.total_value = p.shares * p.price ∧ T ≤ p.total_value := by
  unfold processTxn at h
  split at h
  · exact absurd h (by simp)
  · split at h
    · exact absurd h (by simp)
    · split at h
      · exact absurd h (by simp)
      · split at h
        · cases Option.some.inj h
          exact ⟨rfl, by assumption⟩
        · exact absurd h (by simp)

theorem mem_processTxns {T : ℚ} {ts : List Txn} {p : Purchase} :
    p ∈ processTxns T ts ↔ ∃ t ∈ ts, processTxn T t = some p := by
  simp [processTxns, List.mem_filterMap]

theorem processTxns_cons (T : ℚ) (t : Txn) (ts : List Txn) :
    processTxns T (t :: ts) =
      match processTxn T t with
      | none => processTxns T ts
      | some p => p :: processTxns T ts := by
  cases h : processTxn T t <;> simp [processTxns, List.filterMap_cons, h]

theorem processTxn_txnP {T sh pr : ℚ} (h : sh * pr ≥ T) :
    processTxn T (txnP sh pr) =
      some { date := "2024-01-02", shares := sh, price := pr,
             total_value := sh * pr } := by
  unfold processTxn txnP
  dsimp only [lineVals, numVal]
  rw [if_neg (by decide), if_neg (by decide), if_pos h]

theorem processTxn_txnP_lt {T sh pr : ℚ} (h : ¬ sh * pr ≥ T) :
    processTxn T (txnP sh pr) = none := by
  unfold processTxn txnP
  dsimp only [lineVals, numVal]
  rw [if_neg (by decide), if_neg (by decide), if_neg h]

/-! ### Lemmas about `parse_form4_xml` -/

theorem parse_some_inv {T : ℚ} {url : String} {doc : Form4Xml}
    {rec : PurchaseRecord} (h : parse_form4_xml T url doc = some rec) :
    doc.issuerName ≠ "" ∧
    rec.purchases = processTxns T doc.txns ∧
    rec.purchases ≠ [] ∧
    rec.total_invested = (rec.purchases.map Purchase.total_value).sum ∧
    rec.total_shares = (rec.purchases.map Purchase.shares).sum ∧
    rec.avg_price =
      (if rec.total_shares ≠ 0 then rec.total_invested / rec.total_shares else 0) := by
  by_cases h1 : doc.issuerName = ""
  · rw [parse_form4_xml, if_pos h1] at h
    exact absurd h (by simp)
  · by_cases h2 : processTxns T doc.txns = []
    · simp only [parse_form4_xml, if_neg h1, h2, if_pos rfl] at h
      exact absurd h (by simp)
    · simp only [parse_form4_xml, if_neg h1, if_neg h2, Option.some.injEq] at h
      subst h
      refine ⟨h1, rfl, h2, rfl, rfl, rfl⟩

theorem parse_form4_xml_of {T : ℚ} (url : String) (doc : Form4Xml)
    (h1 : doc.issuerName ≠ "") (h2 : processTxns T doc.txns ≠ []) :
    parse_form4_xml T url doc =
      some { issuer_name := doc.issuerName,
             ticker := if doc.issuerTradingSymbol ≠ "" then strUpper doc.issuerTradingSymbol
                       else "N/A",
             issuer_cik := doc.issuerCik,
             owner_name := doc.rptOwnerName,
             role := role_str doc.rel,
             purchases := processTxns T doc.txns,
             total_invested := ((processTxns T doc.txns).map Purchase.total_value).sum,
             total_shares := ((processTxns T doc.txns).map Purchase.shares).sum,
             avg_price := if ((processTxns T doc.txns).map Purchase.shares).sum ≠ 0
               then ((processTxns T doc.txns).map Purchase.total_value).sum /
                 ((processTxns T doc.txns).map Purchase.shares).sum
               else 0,
             filing_url := url } := by
  simp only [parse_form4_xml, if_neg h1, if_neg h2]

theorem processTxns_docOK : processTxns 250000 docOK.txns = [pOK] := by
  show processTxns 250000 [txnP 1000 300] = [pOK]
  rw [processTxns_cons, processTxn_txnP (by norm_num : (1000 : ℚ) * 300 ≥ 250000)]
  norm_num [processTxns, pOK]

theorem parse_docOK :
    parse_form4_xml 250000 "https://www.sec.gov/a/b.xml" docOK = some recOK := by
  rw [parse_form4_xml_of _ _ (by decide) (by rw [processTxns_docOK]; decide)]
  rw [recOK]
  congr 1
  rw [processTxns_docOK]
  have hu : strUpper "ACME" = "ACME" := by decide
  have hr : role_str none = "Insider" := by decide
  norm_num [docOK, pOK, hu, hr]
  decide

/-! ### Lemmas about the deduplication pass -/

theorem dedupAux_sublist :
    ∀ (l : List PurchaseRecord) (seen : List (String × String)),
      (dedupAux l seen).Sublist l
  | [], _ => List.nil_sublist []
  | t :: ts, seen => by
    unfold dedupAux
    by_cases h : dedupKey t ∈ seen
    · rw [if_pos h]
      exact (dedupAux_sublist ts seen).cons t
    · rw [if_neg h]
      exact (dedupAux_sublist ts _).cons₂ t

theorem dedupAux_not_seen :
    ∀ {l : List PurchaseRecord} {seen : List (String × String)} {r : PurchaseRecord},
      r ∈ dedupAux l seen → dedupKey r ∉ seen := by
  intro l
  induction l with
  | nil => intro seen r h; exact absurd h (by simp [dedupAux])
  | cons t ts ih =>
    intro seen r h
    unfold dedupAux at h
    by_cases ht : dedupKey t ∈ seen
    · rw [if_pos ht] at h
      exact ih h
    · rw [if_neg ht] at h
      rcases List.mem_cons.mp h with rfl | h2
      · exact ht
      · have := ih h2
        intro hc
        exact this (List.mem_cons_of_mem _ hc)

theorem dedupAux_pairwise :
    ∀ (l : List PurchaseRecord) (seen : List (String × String)),
      (dedupAux l seen).Pairwise (fun a b => dedupKey a ≠ dedupKey b)
  | [], _ => by simp [dedupAux]
  | t :: ts, seen => by
    unfold dedupAux
    by_cases h : dedupKey t ∈ seen
    · rw [if_pos h]
      exact dedupAux_pairwise ts seen
    · rw [if_neg h]
      refine List.Pairwise.cons ?_ (dedupAux_pairwise ts _)
      intro b hb
      have := dedupAux_not_seen hb
      intro hc
      exact this (hc ▸ List.mem_cons_self _ _)

theorem dedupAux_covers :
    ∀ (l : List PurchaseRecord) (seen : List (String × String)) (r : PurchaseRecord),
      r ∈ l → dedupKey r ∉ seen →
      ∃ s ∈ dedupAux l seen, dedupKey s = dedupKey r
  | [], _, r => by simp
  | t :: ts, seen, r => by
    intro hr hseen
    unfold dedupAux
    by_cases ht : dedupKey t ∈ seen
    · rw [if_pos ht]
      rcases List.mem_cons.mp hr with rfl | h2
      · exact absurd ht hseen
      · exact dedupAux_covers ts seen r h2 hseen
    · rw [if_neg ht]
      rcases List.mem_cons.mp hr with rfl | h2
      · exact ⟨r, List.mem_cons_self _ _, rfl⟩
      · by_cases hk : dedupKey r = dedupKey t
        · exact ⟨t, List.mem_cons_self _ _, hk.symm⟩
        · obtain ⟨s, hs, hks⟩ :=
            dedupAux_covers ts (dedupKey t :: seen) r h2 (by simp [hk, hseen])
          exact ⟨s, List.mem_cons_of_mem _ hs, hks⟩

theorem dedupAux_find :
    ∀ (l : List PurchaseRecord) (seen : List (String × String)) (r : PurchaseRecord),
      r ∈ dedupAux l seen →
      l.find? (fun t => decide (dedupKey t = dedupKey r)) = some r
  | [], _, r => by simp [dedupAux]
  | t :: ts, seen, r => by
    intro hr
    unfold dedupAux at hr
    by_cases ht : dedupKey t ∈ seen
    · rw [if_pos ht] at hr
      have hne : dedupKey t ≠ dedupKey r := by
        intro hc
        exact dedupAux_not_seen hr (hc ▸ ht)
      rw [List.find?_cons_of_neg _ (by simp [hne])]
      exact dedupAux_find ts seen r hr
    · rw [if_neg ht] at hr
      rcases List.mem_cons.mp hr with rfl | h2
      · rw [List.find?_cons_of_pos _ (by simp)]
      · have hmem := dedupAux_not_seen h2
        have hne : dedupKey t ≠ dedupKey r := by
          intro hc
          exact hmem (hc ▸ List.mem_cons_self _ _)
        rw [List.find?_cons_of_neg _ (by simp [hne])]
        exact dedupAux_find ts _ r h2

theorem dedupAux_eq_self :
    ∀ {l : List PurchaseRecord} {seen : List (String × String)},
      l.Pairwise (fun a b => dedupKey a ≠ dedupKey b) →
      (∀ r ∈ l, dedupKey r ∉ seen) →
      dedupAux l seen = l := by
  intro l
  induction l with
  | nil => intro seen _ _; rfl
  | cons t ts ih =>
    intro seen hp hs
    unfold dedupAux
    rw [if_neg (hs t (List.mem_cons_self _ _))]
    congr 1
    refine ih (List.Pairwise.of_cons hp) ?_
    intro r hr
    simp only [List.mem_cons, not_or]
    refine ⟨?_, hs r (List.mem_cons_of_mem _ hr)⟩
    have := (List.pairwise_cons.mp hp).1 r hr
    exact fun hc => this hc.symm

/-! ### Lemmas about the presentation sort -/

theorem filter_orderedInsert_value (v : ℚ) (a : PurchaseRecord) :
    ∀ l : List PurchaseRecord,
      (List.orderedInsert valGE a l).filter (fun t => decide (t.total_invested = v)) =
        if a.total_invested = v
        then a :: l.filter (fun t => decide (t.total_invested = v))
        else l.filter (fun t => decide (t.total_invested = v))
  | [] => by
    by_cases h : a.total_invested = v <;>
      simp [List.orderedInsert, List.filter, h]
  | b :: l => by
    unfold List.orderedInsert
    by_cases hab : valGE a b
    · rw [if_pos hab]
      by_cases ha : a.total_invested = v <;> simp [List.filter_cons, ha]
    · rw [if_neg hab]
      have key := filter_orderedInsert_value v a l
      by_cases ha : a.total_invested = v
      · have hb : ¬ b.total_invested = v := by
          intro hb
          exact hab (by unfold valGE; rw [hb, ha])
        simp [List.filter_cons, ha, hb, key]
      · simp [List.filter_cons, ha, key]

theorem filter_sortByValueDesc (v : ℚ) :
    ∀ l : List PurchaseRecord,
      (sortByValueDesc l).filter (fun t => decide (t.total_invested = v)) =
        l.filter (fun t => decide (t.total_invested = v))
  | [] => rfl
  | a :: l => by
    have hstep : sortByValueDesc (a :: l) =
        List.orderedInsert valGE a (sortByValueDesc l) := rfl
    rw [hstep, filter_orderedInsert_value, filter_sortByValueDesc v l]
    by_cases ha : a.total_invested = v <;> simp [List.filter_cons, ha]

theorem sortByValueDesc_sorted (l : List PurchaseRecord) :
    (sortByValueDesc l).Sorted valGE :=
  List.sorted_insertionSort valGE l

theorem sortByValueDesc_perm (l : List PurchaseRecord) :
    List.Perm (sortByValueDesc l) l :=
  List.perm_insertionSort valGE l

theorem sortByValueDesc_of_sorted {l : List PurchaseRecord}
    (h : l.Sorted valGE) : sortByValueDesc l = l :=
  List.Sorted.insertionSort_eq h

/-! ### Lemmas about the document locator and the main trace -/

theorem firstXmlLink_eq (folder : String) :
    ∀ links : List String,
      firstXmlLink folder links =
        ((links.dropWhile isRenderArtifact).head?).map (resolveLink folder)
  | [] => rfl
  | link :: rest => by
    unfold firstXmlLink
    by_cases h : isRenderArtifact link
    · rw [if_pos h, firstXmlLink_eq folder rest, List.dropWhile_cons_of_pos h]
    · rw [if_neg h]
      rw [List.dropWhile_cons_of_neg (by simp [h])]
      simp

theorem mainRun_shape (cfg : Config) (w : World) :
    ∃ n : Nat,
      mainRun cfg w =
        (List.replicate n Event.netCall ++ send_email_trace cfg w.smtpOk,
         runExitCode cfg w) := by
  unfold mainRun fetch_form4_robust_trace rss_fallback_trace
  dsimp only
  cases h1 : (w.robustUrls).isEmpty with
  | true =>
    cases h2 : (w.rssLinks.filterMap w.resolveIndex).isEmpty with
    | true =>
      refine ⟨1 + w.robustExtraCalls + (1 + w.rssLinks.length + w.rssExtraCalls), ?_⟩
      conv_rhs => rw [List.replicate_add]
      simp [h2, List.append_assoc]
    | false =>
      refine ⟨1 + w.robustExtraCalls + ((1 + w.rssLinks.length + w.rssExtraCalls)
        + (w.rssLinks.filterMap w.resolveIndex).length), ?_⟩
      conv_rhs => rw [List.replicate_add, List.replicate_add]
      simp [h2, List.append_assoc]
      have hN : 1 + w.robustExtraCalls + (1 + w.rssLinks.length + w.rssExtraCalls) +
          (List.filterMap w.resolveIndex w.rssLinks).length
          = (w.robustExtraCalls + (1 + w.rssLinks.length + w.rssExtraCalls +
              (List.filterMap w.resolveIndex w.rssLinks).length)) + 1 := by omega
      rw [hN, List.replicate_succ, List.cons_append]
  | false =>
    refine ⟨1 + w.robustExtraCalls + w.robustUrls.length, ?_⟩
    conv_rhs => rw [List.replicate_add]
    simp [h1, List.append_assoc]

/-! ### Further helper lemmas for concrete runs -/

theorem parse_none_of_empty {T : ℚ} (url : String) (doc : Form4Xml)
    (h2 : processTxns T doc.txns = []) :
    parse_form4_xml T url doc = none := by
  by_cases h1 : doc.issuerName = ""
  · rw [parse_form4_xml, if_pos h1]
  · simp only [parse_form4_xml, if_neg h1, h2, if_pos rfl]
    exact if_pos trivial

theorem processTxns_docSplit : processTxns 250000 docSplit.txns = [] := by
  show processTxns 250000 [txnP 1000 150, txnP 1000 150] = []
  rw [processTxns_cons, processTxn_txnP_lt (by norm_num : ¬ (1000 : ℚ) * 150 ≥ 250000)]
  rw [processTxns_cons, processTxn_txnP_lt (by norm_num : ¬ (1000 : ℚ) * 150 ≥ 250000)]
  rfl

theorem specAggregate_docSplit : specAggregateValue docSplit = 300000 := by
  have h1 : passesTypeDirection
      { code := "P", acqDisp := "A", sharesStr := NumStr.num 1000,
        priceStr := NumStr.num 150, dateStr := "2024-01-02" } := by decide
  norm_num [specAggregateValue, docSplit, List.filter_cons, h1, List.filterMap_cons,
    txnP, lineVals, numVal]

theorem threshold_le_sum {T : ℚ} (hT : 0 ≤ T) :
    ∀ {l : List ℚ}, l ≠ [] → (∀ x ∈ l, T ≤ x) → T ≤ l.sum
  | [], h, _ => absurd rfl h
  | x :: xs, _, hall => by
    rw [List.sum_cons]
    have hx := hall x (List.mem_cons_self _ _)
    have hxs : 0 ≤ xs.sum :=
      List.sum_nonneg fun y hy => le_trans hT (hall y (List.mem_cons_of_mem _ hy))
    exact le_add_of_le_of_nonneg hx hxs

theorem processTxns_single : processTxns 250000 [txnP 1000 300] = [pOK] := by
  rw [processTxns_cons, processTxn_txnP (by norm_num : (1000 : ℚ) * 300 ≥ 250000)]
  norm_num [processTxns, pOK]

theorem processTxns_docNeg : processTxns 250000 docNeg.txns = [pNeg] := by
  show processTxns 250000 [txnP (-1000) (-300)] = [pNeg]
  rw [processTxns_cons, processTxn_txnP (by norm_num : (-1000 : ℚ) * (-300) ≥ 250000)]
  norm_num [processTxns, pNeg]

theorem parse_docNeg :
    parse_form4_xml 250000 "https://www.sec.gov/a/b.xml" docNeg = some recNeg := by
  rw [parse_form4_xml_of _ _ (by decide) (by rw [processTxns_docNeg]; decide)]
  rw [recNeg]
  congr 1
  rw [processTxns_docNeg]
  have hu : strUpper "ACME" = "ACME" := by decide
  have hr : role_str none = "Insider" := by decide
  norm_num [docNeg, pNeg, hu, hr]
  decide

/-! ### The claims -/

/-- C1, counterexample: the threshold test is not applied to the aggregate.
`docSplit` has two surviving purchase lines of 150000 dollars each, so the
aggregate invested value over the lines backing its record is 300000 ≥
250000, yet `parse_form4_xml` emits no record, because line 406 of the
source compares each line's own value with the threshold. -/
theorem claim_C1_counterexample :
    (250000 : ℚ) ≤ specAggregateValue docSplit ∧
    parse_form4_xml 250000 "https://www.sec.gov/a/b.xml" docSplit = none := by
  constructor
  · rw [specAggregate_docSplit]
    norm_num
  · exact parse_none_of_empty _ _ processTxns_docSplit

/-- C1, amended: the threshold is applied to each line individually, and a
record is emitted exactly when at least one line survives that per-line
test; consequently (for a non-negative threshold) every emitted record
still has aggregate invested value ≥ the threshold, each backing line
having value ≥ the threshold on its own. -/
theorem claim_C1 (T : ℚ) (url : String) (doc : Form4Xml) (rec : PurchaseRecord)
    (hT : 0 ≤ T) (h : parse_form4_xml T url doc = some rec) :
    rec.purchases ≠ [] ∧
    (∀ p ∈ rec.purchases, T ≤ p.total_value) ∧
    T ≤ rec.total_invested := by
  obtain ⟨-, hpur, hne, hinv, -, -⟩ := parse_some_inv h
  have hall : ∀ p ∈ rec.purchases, T ≤ p.total_value := by
    intro p hp
    rw [hpur] at hp
    obtain ⟨t, -, ht⟩ := mem_processTxns.mp hp
    exact (processTxn_some ht).2
  refine ⟨hne, hall, ?_⟩
  rw [hinv]
  refine threshold_le_sum hT (by simpa using hne) ?_
  intro x hx
  obtain ⟨p, hp, rfl⟩ := List.mem_map.mp hx
  exact hall p hp

/-- C1, witness: the amended theorem applied to the concrete qualifying
document `docOK` at threshold 250000. -/
theorem claim_C1_witness :
    recOK.purchases ≠ [] ∧ (250000 : ℚ) ≤ recOK.total_invested :=
  ⟨(claim_C1 250000 "https://www.sec.gov/a/b.xml" docOK recOK
      (by norm_num) parse_docOK).1,
   (claim_C1 250000 "https://www.sec.gov/a/b.xml" docOK recOK
      (by norm_num) parse_docOK).2.2⟩

/-- C2, counterexample: with the delivery credential absent, the run issues
its search request and one document fetch (two network calls) before the
fatal `sys.exit(1)`, so network activity does occur before the fatal stop:
the credential is only checked inside `send_email`, at delivery time. -/
theorem claim_C2_counterexample :
    cfgNoPass.gmailAppPass = "" ∧
    mainRun cfgNoPass worldOne =
      ([Event.netCall, Event.netCall, Event.abortNonzero], 1) :=
  ⟨rfl, rfl⟩

/-- C2, amended: when the delivery credential is missing the run does abort
with exit code 1 and delivers no email, but only at delivery time: the
fatal stop is the last event of the trace, after all upstream fetching. -/
theorem claim_C2 (cfg : Config) (w : World) (h : cfg.gmailAppPass = "") :
    (mainRun cfg w).2 = 1 ∧
    Event.emailDelivered ∉ (mainRun cfg w).1 ∧
    (mainRun cfg w).1.getLast? = some Event.abortNonzero := by
  obtain ⟨n, hn⟩ := mainRun_shape cfg w
  have hsend : send_email_trace cfg w.smtpOk = [Event.abortNonzero] := by
    unfold send_email_trace
    rw [if_pos h]
  have hexit : runExitCode cfg w = 1 := by
    unfold runExitCode
    rw [if_pos h]
  rw [hn, hsend, hexit]
  dsimp only
  refine ⟨rfl, ?_, ?_⟩
  · intro hmem
    rcases List.mem_append.mp hmem with hmem | hmem
    · exact absurd (List.eq_of_mem_replicate hmem) (by decide)
    · exact absurd hmem (by decide)
  · rw [List.getLast?_concat]

/-- C2, witness: the amended theorem applied to the credential-less
configuration and a world with one resolved document URL. -/
theorem claim_C2_witness :
    (mainRun cfgNoPass worldOne).2 = 1 ∧
    Event.emailDelivered ∉ (mainRun cfgNoPass worldOne).1 ∧
    (mainRun cfgNoPass worldOne).1.getLast? = some Event.abortNonzero :=
  claim_C2 cfgNoPass worldOne rfl

/-- C3, counterexample: two records whose `(ticker, owner name)` keys agree
case-insensitively but whose owner names differ in case are both kept by
the dedup pass — the `seen` set compares the raw tuple, so the insider name
is matched case-sensitively, not case-insensitively. -/
theorem claim_C3_counterexample :
    strLower (dedupKey (mkRec "ABC" "Jane Doe" 1)).1 =
      strLower (dedupKey (mkRec "ABC" "JANE DOE" 2)).1 ∧
    strLower (dedupKey (mkRec "ABC" "Jane Doe" 1)).2 =
      strLower (dedupKey (mkRec "ABC" "JANE DOE" 2)).2 ∧
    dedupRecords [mkRec "ABC" "Jane Doe" 1, mkRec "ABC" "JANE DOE" 2] =
      [mkRec "ABC" "Jane Doe" 1, mkRec "ABC" "JANE DOE" 2] ∧
    (dedupRecords [mkRec "ABC" "Jane Doe" 1, mkRec "ABC" "JANE DOE" 2]).length ≠ 1 := by
  have hne : ¬ dedupKey (mkRec "ABC" "JANE DOE" 2) =
      dedupKey (mkRec "ABC" "Jane Doe" 1) := by
    dsimp [dedupKey, mkRec]
    decide
  refine ⟨by decide, by decide, ?_, ?_⟩
  · simp [dedupRecords, dedupAux, hne]
  · simp [dedupRecords, dedupAux, hne]

/-- C3, amended: deduplication collapses records on exact equality of the
`(ticker, owner name)` tuple: the output is an order-preserving sublist of
the input with pairwise distinct keys, every input key is represented, and
each surviving record is the first record of the input carrying its key,
later records with the same exact key being discarded entirely.  (Ticker
comparison is case-insensitive in effect only because the extractor
upper-cases tickers; owner names are compared case-sensitively.) -/
theorem claim_C3 (l : List PurchaseRecord) :
    (dedupRecords l).Sublist l ∧
    (dedupRecords l).Pairwise (fun a b => dedupKey a ≠ dedupKey b) ∧
    (∀ r ∈ l, ∃ s ∈ dedupRecords l, dedupKey s = dedupKey r) ∧
    (∀ r ∈ dedupRecords l,
      l.find? (fun t => decide (dedupKey t = dedupKey r)) = some r) := by
  refine ⟨dedupAux_sublist l [], dedupAux_pairwise l [], ?_, ?_⟩
  · intro r hr
    exact dedupAux_covers l [] r hr (by simp)
  · intro r hr
    exact dedupAux_find l [] r hr

/-- C3, witness: the first-seen clause of the amended theorem applied to a
concrete singleton input. -/
theorem claim_C3_witness :
    List.find? (fun t => decide (dedupKey t = dedupKey (mkRec "ABC" "Jane Doe" 1)))
        [mkRec "ABC" "Jane Doe" 1] = some (mkRec "ABC" "Jane Doe" 1) :=
  (claim_C3 [mkRec "ABC" "Jane Doe" 1]).2.2.2 (mkRec "ABC" "Jane Doe" 1)
    (by simp [dedupRecords, dedupAux])

/-- C4, counterexample: the extractor performs no sign checks.  `docNeg`
carries a line with share quantity -1000 and price -300; their product
300000 clears the 250000 threshold, so the record is emitted with a line
whose share quantity is not strictly positive and whose price is
negative. -/
theorem claim_C4_counterexample :
    parse_form4_xml 250000 "https://www.sec.gov/a/b.xml" docNeg = some recNeg ∧
    recNeg.purchases.map Purchase.shares = [(-1000 : ℚ)] ∧
    recNeg.purchases.map Purchase.price = [(-300 : ℚ)] ∧
    ¬ (0 < (-1000 : ℚ)) ∧ ¬ (0 ≤ (-300 : ℚ)) :=
  ⟨parse_docNeg, by norm_num [recNeg, pNeg], by norm_num [recNeg, pNeg],
   by norm_num, by norm_num⟩

/-- C4, amended: every line item of an emitted record satisfies value =
shares × price and value ≥ the configured threshold; positivity of the
share quantity and non-negativity of the price are not guaranteed. -/
theorem claim_C4 (T : ℚ) (url : String) (doc : Form4Xml) (rec : PurchaseRecord)
    (h : parse_form4_xml T url doc = some rec) :
    ∀ p ∈ rec.purchases, p.total_value = p.shares * p.price ∧ T ≤ p.total_value := by
  intro p hp
  obtain ⟨-, hpur, -, -, -, -⟩ := parse_some_inv h
  rw [hpur] at hp
  obtain ⟨t, -, ht⟩ := mem_processTxns.mp hp
  exact processTxn_some ht

/-- C4, witness: the amended theorem applied to `docOK` and its line. -/
theorem claim_C4_witness :
    pOK.total_value = pOK.shares * pOK.price ∧ (250000 : ℚ) ≤ pOK.total_value :=
  claim_C4 250000 "https://www.sec.gov/a/b.xml" docOK recOK parse_docOK pOK
    (by simp [recOK])

/-- C5: a non-derivative line passes the transaction-type and direction
filter exactly when its code is "P" and its acquired/disposed code is "A"
or absent (the empty string, which is what the text reader returns for a
missing element); any line failing that filter — in particular any code-"S"
sale — contributes no purchase, whatever its value or the threshold. -/
theorem claim_C5 (t : Txn) :
    (passesTypeDirection t ↔ t.code = "P" ∧ (t.acqDisp = "A" ∨ t.acqDisp = "")) ∧
    (∀ T : ℚ, ¬ passesTypeDirection t → processTxn T t = none) := by
  refine ⟨?_, fun T h => processTxn_not_pass h T⟩
  unfold passesTypeDirection
  constructor
  · rintro ⟨h1, h2⟩
    refine ⟨not_not.mp h1, ?_⟩
    by_cases hA : t.acqDisp = "A"
    · exact Or.inl hA
    · refine Or.inr ?_
      by_contra hE
      exact h2 ⟨hE, hA⟩
  · rintro ⟨h1, h2⟩
    refine ⟨by simp [h1], ?_⟩
    rintro ⟨hE, hA⟩
    rcases h2 with h | h
    · exact hA h
    · exact hE h

/-- C5, witness: the theorem applied to the concrete sale line `txnS`,
whose large value does not save it. -/
theorem claim_C5_witness :
    (passesTypeDirection txnS ↔
      txnS.code = "P" ∧ (txnS.acqDisp = "A" ∨ txnS.acqDisp = "")) ∧
    processTxn 250000 txnS = none :=
  ⟨(claim_C5 txnS).1, (claim_C5 txnS).2 250000 (by decide)⟩

/-- C6: for every emitted record the average price is the aggregate value
divided by the aggregate shares when the aggregate shares are positive, and
0 when they are zero — no division by zero occurs. -/
theorem claim_C6 (T : ℚ) (url : String) (doc : Form4Xml) (rec : PurchaseRecord)
    (h : parse_form4_xml T url doc = some rec) :
    (0 < rec.total_shares → rec.avg_price = rec.total_invested / rec.total_shares) ∧
    (rec.total_shares = 0 → rec.avg_price = 0) := by
  obtain ⟨-, -, -, -, -, havg⟩ := parse_some_inv h
  constructor
  · intro hpos
    rw [havg, if_pos (ne_of_gt hpos)]
  · intro hz
    rw [havg, if_neg (by simp [hz])]

/-- C6, witness: the theorem applied to `docOK`, whose record has 1000
aggregate shares. -/
theorem claim_C6_witness :
    recOK.avg_price = recOK.total_invested / recOK.total_shares :=
  (claim_C6 250000 "https://www.sec.gov/a/b.xml" docOK recOK parse_docOK).1
    (by norm_num [recOK])

/-- C7: the presentation sort returns a permutation of its input that is
sorted by aggregate invested value in descending order, and the records
carrying any fixed aggregate value appear in their input order (the sort is
stable). -/
theorem claim_C7 (l : List PurchaseRecord) (v : ℚ) :
    List.Perm (sortByValueDesc l) l ∧
    (sortByValueDesc l).Sorted (fun a b => b.total_invested ≤ a.total_invested) ∧
    (sortByValueDesc l).filter (fun t => decide (t.total_invested = v)) =
      l.filter (fun t => decide (t.total_invested = v)) :=
  ⟨sortByValueDesc_perm l, sortByValueDesc_sorted l, filter_sortByValueDesc v l⟩

/-- C8: the aggregator — first-seen dedup followed by the stable descending
sort — is idempotent: applying it to its own output returns that output
unchanged. -/
theorem claim_C8 (l : List PurchaseRecord) :
    aggregate (aggregate l) = aggregate l := by
  unfold aggregate
  have hd : (dedupRecords l).Pairwise (fun a b => dedupKey a ≠ dedupKey b) :=
    dedupAux_pairwise l []
  have hs : (sortByValueDesc (dedupRecords l)).Pairwise
      (fun a b => dedupKey a ≠ dedupKey b) :=
    ((sortByValueDesc_perm (dedupRecords l)).pairwise_iff
      (by intro a b hab; exact hab.symm)).mpr hd
  have h1 : dedupRecords (sortByValueDesc (dedupRecords l)) =
      sortByValueDesc (dedupRecords l) :=
    dedupAux_eq_self hs (by simp)
  rw [h1, sortByValueDesc_of_sorted (sortByValueDesc_sorted (dedupRecords l))]

/-- C9, counterexample: the locator's only exclusion is the `r_` basename
test, so a `FilingSummary.xml` link listed first is returned, not
skipped. -/
theorem claim_C9_counterexample :
    find_xml_on_index_page
        "https://www.sec.gov/Archives/edgar/data/1234/000123/0001-index.htm" 200
        ["FilingSummary.xml", "form4.xml"] =
      some "https://www.sec.gov/Archives/edgar/data/1234/000123/FilingSummary.xml" := by
  decide

/-- C9, amended: on a successfully fetched page the locator skips exactly
the links whose basename starts (case-insensitively) with `r_` — the XBRL
render artifacts; filing-summary files are not excluded — and returns the
first remaining candidate (absolute links as they are, relative links
joined to the page's folder); it returns `none` (NotFound, not an error)
both when no candidate remains and when the page's status is not 200. -/
theorem claim_C9 (idx_url : String) (status : Nat) (xmlLinks : List String) :
    find_xml_on_index_page idx_url status xmlLinks =
      if status = 200
      then ((xmlLinks.dropWhile isRenderArtifact).head?).map
        (resolveLink (dirnameOf idx_url))
      else none := by
  unfold find_xml_on_index_page
  by_cases h : status = 200
  · rw [if_neg (by simp [h]), if_pos h, firstXmlLink_eq]
  · rw [if_pos h, if_neg h]

/-- C10: a parsed document with no issuer name element yields no record
even when qualifying transaction lines are present, while a document with
an issuer name and at least one surviving line always yields a record —
whatever its ticker, CIK and owner-name fields contain, absent ones
included. -/
theorem claim_C10 (T : ℚ) (url : String) (doc : Form4Xml) :
    (doc.issuerName = "" → parse_form4_xml T url doc = none) ∧
    (doc.issuerName ≠ "" → processTxns T doc.txns ≠ [] →
      (parse_form4_xml T url doc).isSome = true) := by
  constructor
  · intro h1
    rw [parse_form4_xml, if_pos h1]
  · intro h1 h2
    rw [parse_form4_xml_of url doc h1 h2]
    rfl

/-- C10, witness: the theorem applied to `docNoIssuer` (qualifying line,
no issuer name: suppressed) and `docBlankFields` (issuer name present,
ticker/CIK/owner all absent: still emitted). -/
theorem claim_C10_witness :
    parse_form4_xml 250000 "https://www.sec.gov/a/b.xml" docNoIssuer = none ∧
    (parse_form4_xml 250000 "https://www.sec.gov/a/b.xml" docBlankFields).isSome = true := by
  constructor
  · exact (claim_C10 250000 "https://www.sec.gov/a/b.xml" docNoIssuer).1 rfl
  · refine (claim_C10 250000 "https://www.sec.gov/a/b.xml" docBlankFields).2
      (by decide) ?_
    show processTxns 250000 [txnP 1000 300] ≠ []
    rw [processTxns_single]
    decide

end InsiderAlert
